import Mathlib

/-!
A verification development for the habit-tracker application (src/main.js).

Modelling conventions:
* A JavaScript `Date` is modelled by its timestamp: an `Int` counting
  milliseconds since the Unix epoch.  The local time zone is taken to be
  UTC, so `setHours(0,0,0,0)` truncates to a multiple of `msPerDay`, and
  `getDay()` is the day-of-week of the day number (day 0 = 1970-01-01,
  a Thursday, hence `getDay = (dayNumber + 4) mod 7` with a nonnegative
  mod, as in the ECMAScript `WeekDay` operation).
* `toISOString().slice(0,10)` is modelled by converting the day number to
  the proleptic-Gregorian civil date `(y, m, d)`, rendering it as
  `YYYY-MM-DD` (with the ECMAScript extended six-digit year form outside
  `0..9999`) and keeping the first ten characters, as `slice` does —
  which truncates the day off an expanded-year date.
* JavaScript objects are modelled as association lists that keep JS
  property-order semantics: updating an existing key keeps its position,
  a fresh key is appended at the end, `delete` removes the key.
* The persisted slot is modelled at the JSON-value level (`Json` below):
  `JSON.stringify`/`JSON.parse` of the byte encoding are taken as exact
  inverses on JSON values, which is the platform guarantee for the
  acyclic string/bool/array/object values this program stores.
-/

namespace HabitTracker

/-! ### Timestamps and week arithmetic (src/main.js `startOfWeek`, `weekKey`) -/

def msPerDay : Int := 86400000

/-- UTC day number of a timestamp: `floor(t / 86400000)`. -/
def dayNumber (t : Int) : Int := t / msPerDay

/-- Model of `Date.prototype.getDay`: 0 = Sunday .. 6 = Saturday. -/
def getDay (t : Int) : Int := (dayNumber t + 4) % 7

/-- Model of `startOfWeek` from src/main.js: copy the date, subtract `getDay()` days
with `setDate`, then `setHours(0,0,0,0)`; the result is midnight of the
Sunday of the enclosing week. -/
def startOfWeek (t : Int) : Int := (dayNumber t - getDay t) * msPerDay

/-! ### Proleptic Gregorian calendar

`civilFromDays` converts a day number to a civil date `(y, m, d)` with
`1 ≤ m ≤ 12`; `daysFromCivil` is its inverse.  These are the standard
era-based conversions (the calendar behind `toISOString`'s date fields
and the `Date(year, month, day)` constructor), written with the
floor-rounding `Int` division so that they are also correct before 1970. -/

def civilFromDays (z : Int) : Int × Int × Int :=
  let z' := z + 719468
  let era := z' / 146097
  let doe := z' - era * 146097
  let yoe := (doe - doe / 1460 + doe / 36524 - doe / 146096) / 365
  let y := yoe + era * 400
  let doy := doe - (365 * yoe + yoe / 4 - yoe / 100)
  let mp := (5 * doy + 2) / 153
  let d := doy - (153 * mp + 2) / 5 + 1
  let m := mp + (if mp < 10 then 3 else -9)
  (y + (if m ≤ 2 then 1 else 0), m, d)

def daysFromCivil (y m d : Int) : Int :=
  let y' := y - (if m ≤ 2 then 1 else 0)
  let era := y' / 400
  let yoe := y' - era * 400
  let doy := (153 * (m + (if 2 < m then -3 else 9)) + 2) / 5 + d - 1
  let doe := yoe * 365 + yoe / 4 - yoe / 100 + doy
  era * 146097 + doe - 719468

/-- The Gregorian leap-year predicate. -/
def isLeap (y : Int) : Bool := (y % 4 == 0 && y % 100 != 0) || y % 400 == 0

/-- Number of days in civil month `m` (1-based) of year `y`. -/
def monthLength (y m : Int) : Int :=
  if m = 2 then (if isLeap y then 29 else 28)
  else if m = 4 ∨ m = 6 ∨ m = 9 ∨ m = 11 then 30 else 31

def digitChar (n : Nat) : Char := Char.ofNat (48 + n)

def natDigitsRev (fuel n : Nat) : List Nat :=
  match fuel with
  | 0 => []
  | fuel + 1 => if n = 0 then [] else n % 10 :: natDigitsRev fuel (n / 10)

def natDigits (n : Nat) : List Char :=
  if n = 0 then ['0'] else ((natDigitsRev n n).reverse.map digitChar)

def padZeros (w : Nat) (l : List Char) : List Char :=
  List.replicate (w - l.length) '0' ++ l

def digitsVal (l : List Char) : Nat :=
  l.foldl (fun a c => 10 * a + (c.toNat - 48)) 0

def takeDigits : List Char → List Char × List Char
  | [] => ([], [])
  | c :: cs =>
    if c.isDigit then
      let p := takeDigits cs
      (c :: p.1, p.2)
    else ([], c :: cs)

structure RawYMD where
  yv : Nat
  yl : Nat
  mv : Nat
  ml : Nat
  dv : Nat
  dl : Nat

def expectDash (l : List Char) : Option (List Char) :=
  match l with
  | c :: r => if c = '-' then some r else none
  | [] => none

def splitYMD (cs : List Char) : Option RawYMD :=
  (expectDash (takeDigits cs).2).bind (fun r1 =>
    (expectDash (takeDigits r1).2).bind (fun r2 =>
      if (takeDigits r2).2 = [] ∧ (takeDigits cs).1 ≠ [] ∧
          (takeDigits r1).1 ≠ [] ∧ (takeDigits r2).1 ≠ [] then
        some ⟨digitsVal (takeDigits cs).1, (takeDigits cs).1.length,
          digitsVal (takeDigits r1).1, (takeDigits r1).1.length,
          digitsVal (takeDigits r2).1, (takeDigits r2).1.length⟩
      else none))

structure SignedYMD where
  sgn : Bool
  y : Int
  yl : Nat
  m : Nat
  ml : Nat
  d : Nat
  dl : Nat

def splitSignedYMD (cs : List Char) : Option SignedYMD :=
  match cs with
  | [] => none
  | c :: r =>
    if c = '+' then
      (splitYMD r).map (fun t => ⟨true, (t.yv : Int), t.yl, t.mv, t.ml, t.dv, t.dl⟩)
    else if c = '-' then
      (splitYMD r).map (fun t => ⟨true, -(t.yv : Int), t.yl, t.mv, t.ml, t.dv, t.dl⟩)
    else
      (splitYMD (c :: r)).map (fun t => ⟨false, (t.yv : Int), t.yl, t.mv, t.ml, t.dv, t.dl⟩)

def yearChars (y : Int) : List Char :=
  if 0 ≤ y ∧ y ≤ 9999 then padZeros 4 (natDigits y.toNat)
  else if 0 ≤ y then '+' :: padZeros 6 (natDigits y.toNat)
  else '-' :: padZeros 6 (natDigits (-y).toNat)

def isoOfCivil (y m d : Int) : List Char :=
  yearChars y ++ '-' :: (padZeros 2 (natDigits m.toNat) ++ '-' :: padZeros 2 (natDigits d.toNat))

/-- Model of `date.toISOString().slice(0,10)` applied to the midnight of
the given day number: the rendered date is cut to its first ten
characters.  For years 0..9999 that is the whole `YYYY-MM-DD`; for the
ECMAScript expanded years the string is `±YYYYYY-MM-DD`, so the slice
keeps only `±YYYYYY-MM` and the day component is cut off. -/
def toISODate (z : Int) : String :=
  String.mk ((isoOfCivil (civilFromDays z).1 (civilFromDays z).2.1
    (civilFromDays z).2.2).take 10)

/-- Model of `weekKey` from src/main.js: `startOfWeek(d).toISOString().slice(0,10)`. -/
def weekKey (t : Int) : String := toISODate (dayNumber (startOfWeek t))

/-- Model of `new Date(s)` for the date-only strings this program stores:
a valid `YYYY-MM-DD` (or signed six-digit-year) string yields midnight UTC
of that civil date; anything else is an Invalid Date, modelled as `none`. -/
def parseISODate (s : String) : Option Int :=
  match splitSignedYMD s.data with
  | some t =>
    if (t.sgn = false ∧ t.yl = 4 ∨ t.sgn = true ∧ t.yl = 6) ∧ t.ml = 2 ∧ t.dl = 2 ∧
        1 ≤ t.m ∧ t.m ≤ 12 ∧ 1 ≤ t.d ∧ (t.d : Int) ≤ monthLength t.y (t.m : Int) then
      some (daysFromCivil t.y (t.m : Int) (t.d : Int) * msPerDay)
    else none
  | none => none

/-- Reading the civil date back off an ISO date string; a left inverse of
the rendering, used to show `toISODate` is injective. -/
def decodeISODay (s : String) : Option Int :=
  (splitSignedYMD s.data).map (fun t => daysFromCivil t.y (t.m : Int) (t.d : Int))

/-- Two dates lie in the same Sunday-to-Saturday span: some Sunday's
seven-day window of day numbers contains both. -/
def sameSundaySpan (t1 t2 : Int) : Prop :=
  ∃ w : Int, (w + 4) % 7 = 0 ∧
    w ≤ dayNumber t1 ∧ dayNumber t1 < w + 7 ∧
    w ≤ dayNumber t2 ∧ dayNumber t2 < w + 7

/-! ### The persisted document (src/main.js `load`, `save`, state shape) -/

structure Habit where
  id : String
  name : String
  createdAt : String
deriving DecidableEq

abbrev DayMap := List (String × Bool)

abbrev WeekMap := List (String × DayMap)

abbrev CheckMap := List (String × WeekMap)

structure Doc where
  habits : List Habit
  checks : CheckMap
deriving DecidableEq

/-- JS object property read: `o[k]`. -/
def objGet (k : String) : List (String × α) → Option α
  | [] => none
  | (k', v) :: r => if k' = k then some v else objGet k r

/-- JS object property write `o[k] = v`: an existing key keeps its
position, a fresh key is appended. -/
def objSet (k : String) (v : α) : List (String × α) → List (String × α)
  | [] => [(k, v)]
  | (k', v') :: r => if k' = k then (k', v) :: r else (k', v') :: objSet k v r

/-- JS `delete o[k]`. -/
def objDelete (k : String) (l : List (String × α)) : List (String × α) :=
  l.filter (fun p => p.1 ≠ k)

/-- JS property keys are strings: the key a numeric index is stored under. -/
def natKey (n : Nat) : String := String.mk (natDigits n)

/-- Truthiness of `checks[id]?.[wk]?.[day]` in `dayCounts`: the optional
chain is `undefined` (`none`) as soon as a level is missing, and the
resulting value is truthy exactly when it is the boolean `true`. -/
def checkLookup (cm : CheckMap) (id wk dayKey : String) : Bool :=
  ((objGet id cm).bind (fun wm => (objGet wk wm).bind (objGet dayKey))).getD false

/-- The three-level check entry at `(habitId, weekKey, dayIndex)`. -/
def checkEntry (cm : CheckMap) (id wk : String) (day : Nat) : Option Bool :=
  (objGet id cm).bind (fun wm => (objGet wk wm).bind (objGet (natKey day)))

/-- Model of `dayCounts` from src/main.js. -/
def dayCounts (doc : Doc) (date : Int) : Nat × Nat :=
  let wk := weekKey date
  let dayKey := natKey (getDay date).toNat
  doc.habits.foldl
    (fun acc h =>
      match parseISODate h.createdAt with
      | some created =>
        if created ≤ date then
          ((if checkLookup doc.checks h.id wk dayKey then acc.1 + 1 else acc.1), acc.2 + 1)
        else acc
      | none => acc)
    (0, 0)

/-- Specification predicate: the habit existed on `date`
(`createdAt <= date`; a habit whose `createdAt` does not denote a date is
never active, as `Invalid Date` comparisons are false). -/
def habitActiveOn (h : Habit) (date : Int) : Bool :=
  match parseISODate h.createdAt with
  | some created => decide (created ≤ date)
  | none => false

/-- Specification predicate: the habit counts as done on `date`. -/
def habitDoneOn (cm : CheckMap) (h : Habit) (date : Int) : Bool :=
  habitActiveOn h date &&
    checkLookup cm h.id (weekKey date) (natKey (getDay date).toNat)

/-- The checkbox change handler from src/main.js:
`checks[id] ??= {}; checks[id][wk] ??= {}; checks[id][wk][day] = v`. -/
def setCheck (doc : Doc) (id wk : String) (day : Nat) (v : Bool) : Doc :=
  let wm := (objGet id doc.checks).getD []
  let dm := (objGet wk wm).getD []
  { doc with checks := objSet id (objSet wk (objSet (natKey day) v dm) wm) doc.checks }

/-- The delete handler from src/main.js:
`habits = habits.filter(h => h.id !== id); delete checks[id]`. -/
def deleteHabit (doc : Doc) (id : String) : Doc :=
  { habits := doc.habits.filter (fun h => h.id ≠ id),
    checks := objDelete id doc.checks }

/-- The expression `total ? done / total : 0` from `renderCalendar`. -/
def percent (done total : Nat) : ℚ :=
  if total = 0 then 0 else (done : ℚ) / (total : ℚ)

/-! ### Storage: JSON values, the persisted slot, `load` and `save`

The byte level (`JSON.stringify`/`JSON.parse`) is abstracted: the slot
holds the parsed JSON value of the stored bytes, with distinguished
states for an absent key and for bytes that are not valid JSON. -/

inductive Json where
  | null : Json
  | bool : Bool → Json
  | num : Int → Json
  | str : String → Json
  | arr : List Json → Json
  | obj : List (String × Json) → Json

/-- JavaScript truthiness of a JSON value (`x || fallback`). -/
def truthy : Json → Bool
  | .null => false
  | .bool b => b
  | .num n => n != 0
  | .str s => s != ""
  | .arr _ => true
  | .obj _ => true

/-- The state of the `localStorage` slot under the storage key. -/
inductive Slot where
  | empty : Slot
  | junk : Slot
  | val : Json → Slot

def encodeHabit (h : Habit) : Json :=
  .obj [("id", .str h.id), ("name", .str h.name), ("createdAt", .str h.createdAt)]

def encodeDayMap (dm : DayMap) : Json :=
  .obj (dm.map (fun p => (p.1, Json.bool p.2)))

def encodeWeekMap (wm : WeekMap) : Json :=
  .obj (wm.map (fun p => (p.1, encodeDayMap p.2)))

def encodeChecks (cm : CheckMap) : Json :=
  .obj (cm.map (fun p => (p.1, encodeWeekMap p.2)))

/-- Model of `JSON.stringify(state)` at the value level. -/
def encodeDoc (doc : Doc) : Json :=
  .obj [("habits", .arr (doc.habits.map encodeHabit)), ("checks", encodeChecks doc.checks)]

/-- The object literal `{ habits: [], checks: {} }` from `load`. -/
def emptyDocJson : Json := .obj [("habits", .arr []), ("checks", .obj [])]

/-- Model of `load` from src/main.js:
`try { return JSON.parse(localStorage.getItem(KEY)) || {habits:[],checks:{}} }
 catch { return {habits:[],checks:{}} }`.
An absent key gives `JSON.parse("null") = null` (falsy); unparseable bytes
throw and are caught; any truthy parsed value is returned as is. -/
def load (slot : Slot) : Json :=
  match slot with
  | .empty => emptyDocJson
  | .junk => emptyDocJson
  | .val j => if truthy j then j else emptyDocJson

/-- Model of `save` from src/main.js: overwrite the slot with the serialized state. -/
def save (doc : Doc) (_slot : Slot) : Slot := .val (encodeDoc doc)

/-! Shape readers: which JSON values denote a Document. -/

def decodeBool : Json → Option Bool
  | .bool b => some b
  | _ => none

def decodeHabit (j : Json) : Option Habit :=
  match j with
  | .obj l =>
    match l with
    | [(k1, .str i), (k2, .str n), (k3, .str c)] =>
      if k1 = "id" ∧ k2 = "name" ∧ k3 = "createdAt" then some ⟨i, n, c⟩ else none
    | _ => none
  | _ => none

def decodeList (f : Json → Option α) : List Json → Option (List α)
  | [] => some []
  | j :: r => (f j).bind (fun a => (decodeList f r).map (fun l => a :: l))

def decodeKVs (f : Json → Option α) : List (String × Json) → Option (List (String × α))
  | [] => some []
  | (k, j) :: r => (f j).bind (fun a => (decodeKVs f r).map (fun l => (k, a) :: l))

def decodeObjWith (f : Json → Option α) : Json → Option (List (String × α))
  | .obj l => decodeKVs f l
  | _ => none

def decodeDoc (j : Json) : Option Doc :=
  match j with
  | .obj l =>
    match l with
    | [(k1, .arr hs), (k2, cj)] =>
      if k1 = "habits" ∧ k2 = "checks" then
        (decodeList decodeHabit hs).bind (fun habits =>
          (decodeObjWith (decodeObjWith (decodeObjWith decodeBool)) cj).map
            (fun checks => ⟨habits, checks⟩))
      else none
    | _ => none
  | _ => none

/-! ### Month grid (src/main.js `renderCalendar`) -/

/-- One rendered calendar cell: the queried date with its counts and ring
percentage. -/
structure DayCell where
  date : Int
  done : Nat
  total : Nat
  percent : ℚ
deriving DecidableEq

/-- Model of `new Date(y, mon, d)` (local = UTC): months overflow into
years as in ECMAScript `MakeDay`, and the day is a linear offset. -/
def jsDateTs (y mon d : Int) : Int :=
  daysFromCivil (y + mon / 12) (mon % 12 + 1) d * msPerDay

/-- The expression `new Date(y, m + 1, 0).getDate()` from `renderCalendar`: the
day-of-month of the day before the first of the next month. -/
def daysInMonth (y m : Int) : Int :=
  (civilFromDays (dayNumber (jsDateTs y (m + 1) 0))).2.2

/-- The day loop of `renderCalendar`: one cell per `d = 1 .. daysInMonth`,
querying `dayCounts` at `new Date(y, m, d)` and deriving
`total ? done / total : 0`. -/
def monthGrid (doc : Doc) (y m : Int) : List DayCell :=
  (List.range (daysInMonth y m).toNat).map (fun (i : Nat) =>
    let date := jsDateTs y m ((i : Int) + 1)
    let dc := dayCounts doc date
    ⟨date, dc.1, dc.2, percent dc.1 dc.2⟩)

/-! ### Claim theorems -/

/-! ### Theorems -/

/-- The year-of-era bounds and the day-of-year bounds produced inside
`civilFromDays`, the arithmetically hard part of the conversion. -/
theorem yoe_doy_bounds (doe yoe : Int) (h0 : 0 ≤ doe) (h1 : doe < 146097)
    (hy : yoe = (doe - doe / 1460 + doe / 36524 - doe / 146096) / 365) :
    0 ≤ doe - (365 * yoe + yoe / 4 - yoe / 100) ∧
      doe - (365 * yoe + yoe / 4 - yoe / 100) ≤ 365 := by
  have hc : doe = 1460 * (doe / 1460) + doe % 1460 := by omega
  set c := doe / 1460 with hcdef
  set s := doe % 1460 with hsdef
  have hcr : 0 ≤ c ∧ c ≤ 100 := by omega
  have hsr : 0 ≤ s ∧ s < 1460 := by omega
  have he : 0 ≤ doe / 36524 ∧ doe / 36524 ≤ 4 := by omega
  have hf : 0 ≤ doe / 146096 ∧ doe / 146096 ≤ 1 := by omega
  set e := doe / 36524 with hedef
  set f := doe / 146096 with hfdef
  have hu : yoe = 4 * c + (s - c + e - f) / 365 := by omega
  set u := (s - c + e - f) / 365 with hudef
  have hur : -1 ≤ u ∧ u ≤ 4 := by omega
  clear_value c s e f u
  obtain ⟨hu0, hu1⟩ := hur
  obtain ⟨he0, he1⟩ := he
  obtain ⟨hf0, hf1⟩ := hf
  interval_cases u <;> interval_cases e <;> interval_cases f <;> omega

/-- The function `daysFromCivil` inverts `civilFromDays`. -/
theorem daysFromCivil_civilFromDays (z : Int) :
    daysFromCivil (civilFromDays z).1 (civilFromDays z).2.1 (civilFromDays z).2.2 = z := by
  unfold civilFromDays daysFromCivil
  dsimp only
  set z' := z + 719468 with hz'
  set era := z' / 146097 with hera
  set doe := z' - era * 146097 with hdoe
  have hdoe_range : 0 ≤ doe ∧ doe < 146097 := by omega
  set yoe := (doe - doe / 1460 + doe / 36524 - doe / 146096) / 365 with hyoe
  have hdoy_range := yoe_doy_bounds doe yoe hdoe_range.1 hdoe_range.2 hyoe
  have hyoe_range : 0 ≤ yoe ∧ yoe ≤ 399 := by omega
  set p1 := yoe / 4 with hp1
  set p2 := yoe / 100 with hp2
  set doy := doe - (365 * yoe + p1 - p2) with hdoy
  set mp := (5 * doy + 2) / 153 with hmp
  set r5 := (153 * mp + 2) / 5 with hr5
  set d := doy - r5 + 1 with hd
  have hmp_range : 0 ≤ mp ∧ mp ≤ 11 := by omega
  have hd_range : 1 ≤ d ∧ d ≤ 31 := by omega
  split_ifs with h1 h2 h3 h4 <;>
    · simp only [add_zero, sub_zero, add_sub_cancel_right]
      have hera2 : (yoe + era * 400) / 400 = era := by omega
      rw [hera2]
      ring_nf
      omega

/-- The month and day components of `civilFromDays` are in range. -/
theorem civilFromDays_ranges (z : Int) :
    1 ≤ (civilFromDays z).2.1 ∧ (civilFromDays z).2.1 ≤ 12 ∧
      1 ≤ (civilFromDays z).2.2 ∧ (civilFromDays z).2.2 ≤ 31 := by
  unfold civilFromDays
  dsimp only
  set z' := z + 719468 with hz'
  set era := z' / 146097 with hera
  set doe := z' - era * 146097 with hdoe
  have hdoe_range : 0 ≤ doe ∧ doe < 146097 := by omega
  set yoe := (doe - doe / 1460 + doe / 36524 - doe / 146096) / 365 with hyoe
  have hdoy_range := yoe_doy_bounds doe yoe hdoe_range.1 hdoe_range.2 hyoe
  set p1 := yoe / 4 with hp1
  set p2 := yoe / 100 with hp2
  set doy := doe - (365 * yoe + p1 - p2) with hdoy
  set mp := (5 * doy + 2) / 153 with hmp
  have hmp_range : 0 ≤ mp ∧ mp ≤ 11 := by omega
  split_ifs <;> omega

set_option maxHeartbeats 4000000 in
/-- Recovering the year-of-era from the day-of-era: the magic quotient in
`civilFromDays` undoes the leap-day sum in `daysFromCivil`. -/
theorem yoe_recover (yoe doy : Int) (h0 : 0 ≤ yoe) (h1 : yoe ≤ 399)
    (h2 : 0 ≤ doy)
    (h3 : doy ≤ 364 ∨ (doy = 365 ∧
      (((yoe + 1) % 4 = 0 ∧ (yoe + 1) % 100 ≠ 0) ∨ (yoe + 1) % 400 = 0))) :
    ((yoe * 365 + yoe / 4 - yoe / 100 + doy) -
        (yoe * 365 + yoe / 4 - yoe / 100 + doy) / 1460 +
        (yoe * 365 + yoe / 4 - yoe / 100 + doy) / 36524 -
        (yoe * 365 + yoe / 4 - yoe / 100 + doy) / 146096) / 365 = yoe := by
  interval_cases yoe <;> omega

/-- Builder form of `civilFromDays`: if the era decomposition of `z` is
exhibited explicitly, the conversion computes to the given civil date. -/
theorem civilFromDays_eq_of (era doe yoe doy mp : Int) (z y m d : Int)
    (hz : z = era * 146097 + doe - 719468)
    (hdoe : 0 ≤ doe ∧ doe < 146097)
    (hyoe : yoe = (doe - doe / 1460 + doe / 36524 - doe / 146096) / 365)
    (hdoy : doy = doe - (365 * yoe + yoe / 4 - yoe / 100))
    (hmp : mp = (5 * doy + 2) / 153)
    (hm : m = mp + (if mp < 10 then 3 else -9))
    (hd : d = doy - (153 * mp + 2) / 5 + 1)
    (hy : y = yoe + era * 400 + (if m ≤ 2 then 1 else 0)) :
    civilFromDays z = (y, m, d) := by
  subst hz
  unfold civilFromDays
  dsimp only
  have h1 : era * 146097 + doe - 719468 + 719468 = era * 146097 + doe := by ring
  rw [h1]
  have h2 : (era * 146097 + doe) / 146097 = era := by omega
  rw [h2]
  have h3 : era * 146097 + doe - era * 146097 = doe := by ring
  rw [h3]
  rw [← hyoe, ← hdoy, ← hmp, ← hm, ← hd, ← hy]

/-- The function `civilFromDays` inverts `daysFromCivil` on valid civil dates. -/
theorem civilFromDays_daysFromCivil (y m d : Int)
    (hm1 : 1 ≤ m) (hm2 : m ≤ 12) (hd1 : 1 ≤ d) (hd2 : d ≤ monthLength y m) :
    civilFromDays (daysFromCivil y m d) = (y, m, d) := by
  set y' := y - (if m ≤ 2 then 1 else 0) with hy'
  set era := y' / 400 with hera
  set yoe := y' - era * 400 with hyoe0
  set doy := (153 * (m + (if 2 < m then -3 else 9)) + 2) / 5 + d - 1 with hdoy0
  set doe := yoe * 365 + yoe / 4 - yoe / 100 + doy with hdoe0
  have hz : daysFromCivil y m d = era * 146097 + doe - 719468 := by
    unfold daysFromCivil
    dsimp only
  have hyoe_r : 0 ≤ yoe ∧ yoe ≤ 399 := by omega
  clear_value y' era yoe doy doe
  interval_cases m <;>
  · norm_num [monthLength] at hd2 hy' hdoy0
    have h3 : 0 ≤ doy ∧ (doy ≤ 364 ∨ (doy = 365 ∧
        (((yoe + 1) % 4 = 0 ∧ (yoe + 1) % 100 ≠ 0) ∨ (yoe + 1) % 400 = 0))) := by
      first
      | exact ⟨by omega, Or.inl (by omega)⟩
      | · cases hL : isLeap y
          · rw [hL] at hd2; norm_num at hd2
            exact ⟨by omega, Or.inl (by omega)⟩
          · rw [hL] at hd2; norm_num at hd2
            have hLp : (y % 4 = 0 ∧ y % 100 ≠ 0) ∨ y % 400 = 0 := by
              simpa [isLeap] using hL
            refine ⟨by omega, ?_⟩
            rcases Int.lt_or_le doy 365 with hlt | hge
            · exact Or.inl (by omega)
            · exact Or.inr ⟨by omega, by omega⟩
    have hyoe_eq : yoe = (doe - doe / 1460 + doe / 36524 - doe / 146096) / 365 := by
      rw [hdoe0]
      exact (yoe_recover yoe doy hyoe_r.1 hyoe_r.2 h3.1 h3.2).symm
    refine civilFromDays_eq_of era doe yoe doy ((5 * doy + 2) / 153) _ _ _ _ hz
      ⟨by omega, by omega⟩ hyoe_eq (by omega) rfl ?_ (by omega) ?_
    · split_ifs <;> omega
    · split_ifs <;> omega

theorem natDigitsRev_eq (fuel n : Nat) (h : n ≤ fuel) :
    natDigitsRev fuel n = Nat.digits 10 n := by
  induction fuel generalizing n with
  | zero =>
    interval_cases n
    simp [natDigitsRev]
  | succ f ih =>
    rw [natDigitsRev]
    rcases Nat.eq_zero_or_pos n with h0 | h0
    · simp [h0]
    · rw [if_neg (by omega), ih (n / 10) (by omega),
        Nat.digits_def' (by norm_num : (1:Nat) < 10) h0]

theorem digitChar_toNat (d : Nat) (h : d < 10) : (digitChar d).toNat = 48 + d := by
  interval_cases d <;> decide

theorem digitChar_isDigit (d : Nat) (h : d < 10) : (digitChar d).isDigit = true := by
  interval_cases d <;> decide

theorem foldl_digits (l : List Nat) (a : Nat) (hl : ∀ x ∈ l, x < 10) :
    (l.reverse.map digitChar).foldl (fun a c => 10 * a + (c.toNat - 48)) a
      = a * 10 ^ l.length + Nat.ofDigits 10 l := by
  induction l generalizing a with
  | nil => simp
  | cons d l ih =>
    have hd : d < 10 := hl d (by simp)
    rw [List.reverse_cons, List.map_append, List.foldl_append,
      ih a (fun x hx => hl x (by simp [hx]))]
    simp only [List.map_cons, List.map_nil, List.foldl_cons, List.foldl_nil,
      digitChar_toNat d hd, Nat.ofDigits_cons, List.length_cons]
    ring_nf
    omega

theorem digitsVal_natDigits (n : Nat) : digitsVal (natDigits n) = n := by
  rcases Nat.eq_zero_or_pos n with h0 | h0
  · subst h0; decide
  · unfold natDigits digitsVal
    rw [if_neg (by omega), natDigitsRev_eq n n le_rfl,
      foldl_digits _ 0 (fun x hx => Nat.digits_lt_base (by norm_num) hx)]
    simp [Nat.ofDigits_digits]

theorem digitsVal_padZeros (w : Nat) (l : List Char) :
    digitsVal (padZeros w l) = digitsVal l := by
  unfold padZeros digitsVal
  generalize w - l.length = k
  induction k with
  | zero => simp
  | succ k ih => simpa [List.replicate_succ] using ih

theorem natDigits_ne_nil (n : Nat) : natDigits n ≠ [] := by
  unfold natDigits
  split_ifs with h
  · simp
  · have : n ≤ n := le_rfl
    rw [natDigitsRev_eq n n le_rfl]
    simp [Nat.digits_ne_nil_iff_ne_zero, h]

theorem padZeros_ne_nil (w : Nat) (l : List Char) (h : l ≠ []) : padZeros w l ≠ [] := by
  unfold padZeros
  simp [h]

theorem natDigits_isDigit (n : Nat) : ∀ c ∈ natDigits n, c.isDigit = true := by
  intro c hc
  unfold natDigits at hc
  split_ifs at hc with h
  · simp at hc; subst hc; decide
  · rw [natDigitsRev_eq n n le_rfl] at hc
    simp only [List.mem_map, List.mem_reverse] at hc
    obtain ⟨d, hd, rfl⟩ := hc
    exact digitChar_isDigit d (Nat.digits_lt_base (by norm_num) hd)

theorem padZeros_isDigit (w : Nat) (l : List Char) (h : ∀ c ∈ l, c.isDigit = true) :
    ∀ c ∈ padZeros w l, c.isDigit = true := by
  intro c hc
  unfold padZeros at hc
  rw [List.mem_append] at hc
  rcases hc with hc | hc
  · rw [List.eq_of_mem_replicate hc]; decide
  · exact h c hc

theorem natDigits_length_le (n w : Nat) (hw : 1 ≤ w) (h : n < 10 ^ w) :
    (natDigits n).length ≤ w := by
  rcases Nat.eq_zero_or_pos n with h0 | h0
  · subst h0
    simpa [natDigits] using hw
  · unfold natDigits
    rw [if_neg (by omega), natDigitsRev_eq n n le_rfl]
    rw [List.length_map, List.length_reverse,
      Nat.digits_len 10 n (by norm_num) (by omega)]
    have := Nat.log_lt_of_lt_pow (by omega : n ≠ 0) h
    omega

theorem padZeros_length (w : Nat) (l : List Char) (h : l.length ≤ w) :
    (padZeros w l).length = w := by
  unfold padZeros
  simp
  omega

theorem natKey_inj (a b : Nat) (h : natKey a = natKey b) : a = b := by
  have h2 : digitsVal (natDigits a) = digitsVal (natDigits b) := by
    have h3 := congrArg String.data h
    simpa [natKey] using congrArg digitsVal h3
  simpa [digitsVal_natDigits] using h2

/-! ### Association-list lemmas -/

theorem objGet_objSet_self (k : String) (v : α) (l : List (String × α)) :
    objGet k (objSet k v l) = some v := by
  induction l with
  | nil => simp [objGet, objSet]
  | cons p r ih =>
    obtain ⟨k', v'⟩ := p
    by_cases h : k' = k <;> simp [objGet, objSet, h, ih]

theorem objGet_objSet_ne (k k' : String) (v : α) (l : List (String × α)) (h : k' ≠ k) :
    objGet k' (objSet k v l) = objGet k' l := by
  induction l with
  | nil => simp [objGet, objSet, Ne.symm h]
  | cons p r ih =>
    obtain ⟨k'', v''⟩ := p
    by_cases h2 : k'' = k
    · subst h2
      simp [objGet, objSet, Ne.symm h]
    · by_cases h3 : k'' = k' <;> simp [objGet, objSet, h, h2, h3, Ne.symm h, ih]

theorem objGet_objDelete_self (k : String) (l : List (String × α)) :
    objGet k (objDelete k l) = none := by
  induction l with
  | nil => simp [objGet, objDelete]
  | cons p r ih =>
    obtain ⟨k', v'⟩ := p
    by_cases h : k' = k
    · subst h
      simpa [objDelete, objGet] using ih
    · simpa [objDelete, objGet, h] using ih

theorem objGet_objDelete_ne (k k' : String) (l : List (String × α)) (h : k' ≠ k) :
    objGet k' (objDelete k l) = objGet k' l := by
  induction l with
  | nil => simp [objGet, objDelete]
  | cons p r ih =>
    obtain ⟨k'', v''⟩ := p
    simp only [objDelete, List.filter_cons, decide_not] at ih ⊢
    by_cases h2 : k'' = k
    · subst h2
      simp [objGet, Ne.symm h, ih]
    · by_cases h3 : k'' = k'
      · subst h3
        simp [objGet, h2]
      · simp [objGet, h2, h3, ih]

theorem objDelete_of_objGet_none (k : String) (l : List (String × α))
    (h : objGet k l = none) : objDelete k l = l := by
  induction l with
  | nil => rfl
  | cons p r ih =>
    obtain ⟨k', v'⟩ := p
    by_cases h2 : k' = k
    · subst h2; simp [objGet] at h
    · simp only [objGet, if_neg h2] at h
      simpa [objDelete, h2] using ih h

/-! ### Characterization of `dayCounts` -/

theorem dayCounts_foldl (cm : CheckMap) (wk dk : String) (date : Int)
    (habits : List Habit) (a b : Nat) :
    habits.foldl
      (fun acc h =>
        match parseISODate h.createdAt with
        | some created =>
          if created ≤ date then
            ((if checkLookup cm h.id wk dk then acc.1 + 1 else acc.1), acc.2 + 1)
          else acc
        | none => acc)
      (a, b)
    = (a + (habits.filter (fun h => habitActiveOn h date && checkLookup cm h.id wk dk)).length,
       b + (habits.filter (fun h => habitActiveOn h date)).length) := by
  induction habits generalizing a b with
  | nil => simp
  | cons h hs ih =>
    have hact : habitActiveOn h date =
        (match parseISODate h.createdAt with
          | some c => decide (c ≤ date)
          | none => false) := rfl
    simp only [List.foldl_cons, List.filter_cons]
    cases hct : parseISODate h.createdAt with
    | none =>
      have ha : habitActiveOn h date = false := by rw [hact, hct]
      simp [ha, ih a b]
    | some c =>
      by_cases hle : c ≤ date
      · have ha : habitActiveOn h date = true := by
          rw [hact, hct]; exact decide_eq_true hle
        by_cases hch : checkLookup cm h.id wk dk
        · simp only [ha, hch, Bool.true_and, if_true, if_pos hle,
            ih (a + 1) (b + 1), List.length_cons, Prod.mk.injEq]
          omega
        · have hch' : checkLookup cm h.id wk dk = false := by simpa using hch
          simp only [ha, hch', Bool.true_and, Bool.false_eq_true, if_false,
            if_pos hle, ih a (b + 1), List.length_cons, Prod.mk.injEq,
            if_true, true_and]
          omega
      · have ha : habitActiveOn h date = false := by
          rw [hact, hct]; exact decide_eq_false hle
        simp [ha, if_neg hle, ih a b]

/-- The function `dayCounts` counts exactly the active habits (`total`) and the active
habits with a true check entry at the date's week key and day index
(`done`). -/
theorem dayCounts_eq (doc : Doc) (date : Int) :
    dayCounts doc date =
      ((doc.habits.filter (fun h => habitDoneOn doc.checks h date)).length,
       (doc.habits.filter (fun h => habitActiveOn h date)).length) := by
  unfold dayCounts
  simp only [habitDoneOn]
  simpa using
    dayCounts_foldl doc.checks (weekKey date) (natKey (getDay date).toNat) date doc.habits 0 0

theorem length_filter_and_le (l : List α) (p q : α → Bool) :
    (l.filter (fun x => p x && q x)).length ≤ (l.filter p).length := by
  induction l with
  | nil => simp
  | cons x xs ih =>
    by_cases hp : p x
    · by_cases hq : q x <;> simp [List.filter_cons, hp, hq] <;> omega
    · simp [List.filter_cons, hp]
      omega

theorem dayCounts_done_le_total (doc : Doc) (date : Int) :
    (dayCounts doc date).1 ≤ (dayCounts doc date).2 := by
  rw [dayCounts_eq]
  exact length_filter_and_le doc.habits _ _

/-! ### Deleting a habit -/

theorem deleteHabit_no_id (doc : Doc) (id : String) :
    ∀ h ∈ (deleteHabit doc id).habits, h.id ≠ id := by
  intro h hmem
  simp only [deleteHabit, List.mem_filter, decide_eq_true_eq] at hmem
  exact hmem.2

theorem deleteHabit_checks_gone (doc : Doc) (id : String) :
    objGet id (deleteHabit doc id).checks = none :=
  objGet_objDelete_self id doc.checks

theorem checkLookup_objDelete (cm : CheckMap) (id hid wk dk : String) (h : hid ≠ id) :
    checkLookup (objDelete id cm) hid wk dk = checkLookup cm hid wk dk := by
  unfold checkLookup
  rw [objGet_objDelete_ne id hid cm h]

theorem dayCounts_deleteHabit (doc : Doc) (id : String) (date : Int) :
    dayCounts (deleteHabit doc id) date =
      dayCounts ⟨doc.habits.filter (fun h => h.id ≠ id), doc.checks⟩ date := by
  rw [dayCounts_eq, dayCounts_eq]
  have hhab : (deleteHabit doc id).habits = doc.habits.filter (fun h => h.id ≠ id) := rfl
  have hch : (deleteHabit doc id).checks = objDelete id doc.checks := rfl
  rw [hhab, hch]
  dsimp only
  simp only [Prod.mk.injEq, and_true]
  congr 1
  apply List.filter_congr
  intro h hmem
  simp only [List.mem_filter, decide_eq_true_eq] at hmem
  simp only [habitDoneOn, checkLookup_objDelete doc.checks id h.id _ _ hmem.2]

/-! ### Toggling a check -/

theorem setCheck_habits (doc : Doc) (id wk : String) (day : Nat) (v : Bool) :
    (setCheck doc id wk day v).habits = doc.habits := rfl

theorem checkEntry_setCheck_frame (doc : Doc) (id wk : String) (day : Nat) (v : Bool)
    (id' wk' : String) (dk' : String)
    (h : ¬(id' = id ∧ wk' = wk ∧ dk' = natKey day)) :
    (objGet id' (setCheck doc id wk day v).checks).bind
        (fun wm => (objGet wk' wm).bind (objGet dk')) =
      (objGet id' doc.checks).bind (fun wm => (objGet wk' wm).bind (objGet dk')) := by
  unfold setCheck
  dsimp only
  by_cases h1 : id' = id
  · subst h1
    rw [objGet_objSet_self]
    simp only [Option.some_bind]
    by_cases h2 : wk' = wk
    · subst h2
      rw [objGet_objSet_self]
      simp only [Option.some_bind]
      have h3 : dk' ≠ natKey day := fun hc => h ⟨rfl, rfl, hc⟩
      rw [objGet_objSet_ne _ _ _ _ h3]
      cases hg : objGet id' doc.checks with
      | none => simp [objGet]
      | some wm =>
        cases hg2 : objGet wk' wm with
        | none => simp [hg, hg2, objGet]
        | some dm => simp [hg, hg2]
    · rw [objGet_objSet_ne _ _ _ _ h2]
      cases hg : objGet id' doc.checks with
      | none => simp [objGet]
      | some wm => simp [hg]
  · rw [objGet_objSet_ne _ _ _ _ h1]

theorem decodeKVs_encode (f : Json → Option α) (g : α → Json)
    (hfg : ∀ a, f (g a) = some a) (l : List (String × α)) :
    decodeKVs f (l.map (fun p => (p.1, g p.2))) = some l := by
  induction l with
  | nil => rfl
  | cons p r ih =>
    obtain ⟨k, a⟩ := p
    simp [decodeKVs, hfg, ih]

theorem decodeObjWith_encodeDayMap (dm : DayMap) :
    decodeObjWith decodeBool (encodeDayMap dm) = some dm := by
  unfold encodeDayMap decodeObjWith
  exact decodeKVs_encode decodeBool Json.bool (fun b => rfl) dm

theorem decodeObjWith_encodeWeekMap (wm : WeekMap) :
    decodeObjWith (decodeObjWith decodeBool) (encodeWeekMap wm) = some wm := by
  unfold encodeWeekMap decodeObjWith
  exact decodeKVs_encode _ encodeDayMap decodeObjWith_encodeDayMap wm

theorem decodeObjWith_encodeChecks (cm : CheckMap) :
    decodeObjWith (decodeObjWith (decodeObjWith decodeBool)) (encodeChecks cm) = some cm := by
  unfold encodeChecks decodeObjWith
  exact decodeKVs_encode _ encodeWeekMap decodeObjWith_encodeWeekMap cm

theorem decodeHabit_encodeHabit (h : Habit) : decodeHabit (encodeHabit h) = some h := by
  rfl

theorem decodeList_encode (hs : List Habit) :
    decodeList decodeHabit (hs.map encodeHabit) = some hs := by
  induction hs with
  | nil => rfl
  | cons h r ih => simp [decodeList, decodeHabit_encodeHabit, ih]

/-- The canonical serialization is a faithful Document shape. -/
theorem decodeDoc_encodeDoc (doc : Doc) : decodeDoc (encodeDoc doc) = some doc := by
  unfold encodeDoc decodeDoc
  simp [decodeList_encode, decodeObjWith_encodeChecks]

theorem truthy_encodeDoc (doc : Doc) : truthy (encodeDoc doc) = true := rfl

theorem percent_nonneg (done total : Nat) : 0 ≤ percent done total := by
  unfold percent
  split_ifs
  · exact le_refl 0
  · positivity

theorem percent_le_one (done total : Nat) (h : done ≤ total) : percent done total ≤ 1 := by
  unfold percent
  split_ifs with h0
  · norm_num
  · rw [div_le_one (by positivity)]
    exact_mod_cast h

theorem daysFromCivil_lt_of_day_lt (y m d1 d2 : Int) (h : d1 < d2) :
    daysFromCivil y m d1 < daysFromCivil y m d2 := by
  unfold daysFromCivil
  dsimp only
  omega

/-! ### Bridging `checkLookup` and `checkEntry` -/

theorem getD_false_eq_beq_some_true (o : Option Bool) : o.getD false = (o == some true) := by
  cases o with
  | none => rfl
  | some b => cases b <;> rfl

theorem checkLookup_eq (cm : CheckMap) (id wk : String) (day : Nat) :
    checkLookup cm id wk (natKey day) = (checkEntry cm id wk day == some true) := by
  unfold checkLookup checkEntry
  exact getD_false_eq_beq_some_true _

/-- C1: for every document and query date, `dayCounts` returns `total` =
the number of habits with `createdAt <= date` and `done` = the number of
those habits whose check entry at `(habitId, weekKey(date),
dayIndexOf(date))` is true; a habit created strictly after the date
satisfies neither filter, so it contributes to neither count. -/
theorem dayCounts_spec (doc : Doc) (date : Int) :
    dayCounts doc date =
      ((doc.habits.filter (fun h => habitActiveOn h date &&
          (checkEntry doc.checks h.id (weekKey date) (getDay date).toNat == some true))).length,
       (doc.habits.filter (fun h => habitActiveOn h date)).length) := by
  rw [dayCounts_eq]
  simp only [Prod.mk.injEq, and_true]
  congr 1
  apply List.filter_congr
  intro h _
  simp only [habitDoneOn, checkLookup_eq]

/-- C4: saving a document and loading from the same store yields the
document back: the stored value is its serialization, and reading it back
gives a JSON value that denotes exactly the saved document. -/
theorem save_load_roundtrip (doc : Doc) (slot : Slot) :
    load (save doc slot) = encodeDoc doc ∧
      decodeDoc (load (save doc slot)) = some doc := by
  have h1 : load (save doc slot) = encodeDoc doc := by
    unfold save
    simp [load, truthy_encodeDoc]
  exact ⟨h1, by rw [h1]; exact decodeDoc_encodeDoc doc⟩

/-- C5 counterexample: `{}` is stored bytes that parse as valid JSON but
not as a Document shape, yet `load` returns it unchanged rather than the
empty Document. -/
theorem load_shape_counterexample :
    load (Slot.val (Json.obj [])) = Json.obj [] ∧
      decodeDoc (Json.obj []) = none ∧ Json.obj [] ≠ emptyDocJson := by
  refine ⟨rfl, rfl, ?_⟩
  intro hc
  simp [emptyDocJson] at hc

/-- C5 (amended): `load` never fails: an absent slot, unparseable bytes,
or a falsy parsed value give the empty Document; but a truthy parsed
value of any shape is returned as is, without Document-shape validation. -/
theorem load_fallback_amended :
    load Slot.empty = emptyDocJson ∧ load Slot.junk = emptyDocJson ∧
      (∀ j, truthy j = false → load (Slot.val j) = emptyDocJson) ∧
      (∀ j, truthy j = true → load (Slot.val j) = j) := by
  refine ⟨rfl, rfl, ?_, ?_⟩ <;> intro j hj <;> simp [load, hj]

theorem load_fallback_amended_witness :
    truthy (Json.num 0) = false ∧ load (Slot.val (Json.num 0)) = emptyDocJson ∧
      truthy (Json.num 5) = true ∧ load (Slot.val (Json.num 5)) = Json.num 5 :=
  ⟨rfl, load_fallback_amended.2.2.1 (Json.num 0) rfl,
    rfl, load_fallback_amended.2.2.2 (Json.num 5) rfl⟩

/-- C6 counterexample: with a habit id that occurs nowhere in `habits`,
a check-toggle is not a no-op (it creates the checks entry), and a delete
is not a no-op when an orphan checks entry exists under that id. -/
theorem nonexistent_id_counterexample :
    setCheck ⟨[], []⟩ ("h1") ("2024-01-07") 0 true ≠ ⟨[], []⟩ ∧
      deleteHabit ⟨[], [(("h2"), [])]⟩ ("h2") ≠ ⟨[], [(("h2"), [])]⟩ := by
  constructor <;> decide

/-- C6 (amended): for a habit id not in `habits`, a delete is a no-op
provided `checks` has no entry under that id; a check-toggle leaves
`habits` unchanged and touches no checks entry of any other id (but does
write the entry under the given id, so it is not a document no-op). -/
theorem nonexistent_id_amended :
    (∀ (doc : Doc) (id : String), (∀ h ∈ doc.habits, h.id ≠ id) →
      objGet id doc.checks = none → deleteHabit doc id = doc) ∧
    (∀ (doc : Doc) (id wk : String) (day : Nat) (v : Bool) (id' : String), id' ≠ id →
      (setCheck doc id wk day v).habits = doc.habits ∧
        objGet id' (setCheck doc id wk day v).checks = objGet id' doc.checks) := by
  constructor
  · intro doc id hids hchk
    obtain ⟨habs, cks⟩ := doc
    unfold deleteHabit
    simp only [Doc.mk.injEq]
    constructor
    · apply List.filter_eq_self.mpr
      intro h hmem
      simpa using hids h hmem
    · exact objDelete_of_objGet_none id cks hchk
  · intro doc id wk day v id' hne
    exact ⟨rfl, objGet_objSet_ne _ _ _ _ hne⟩

theorem nonexistent_id_amended_witness :
    deleteHabit ⟨[], []⟩ ("x") = ⟨[], []⟩ ∧
      (setCheck ⟨[], []⟩ ("x") ("w") 0 true).habits = [] ∧
      objGet ("y") (setCheck ⟨[], []⟩ ("x") ("w") 0 true).checks = objGet ("y") ([] : CheckMap) :=
  ⟨nonexistent_id_amended.1 ⟨[], []⟩ ("x") (by simp) rfl,
    (nonexistent_id_amended.2 ⟨[], []⟩ ("x") ("w") 0 true ("y") (by decide)).1,
    (nonexistent_id_amended.2 ⟨[], []⟩ ("x") ("w") 0 true ("y") (by decide)).2⟩

/-- C7: deleting a habit id that is present removes every habit with that
id from the sequence and the id's whole checks subtree, and every
subsequent `dayCounts` result equals the count over the remaining habits
alone (the deleted habit is never counted in done or total). -/
theorem deleteHabit_spec (doc : Doc) (id : String)
    (_hmem : id ∈ doc.habits.map Habit.id) :
    (∀ h ∈ (deleteHabit doc id).habits, h.id ≠ id) ∧
      objGet id (deleteHabit doc id).checks = none ∧
      (∀ date, dayCounts (deleteHabit doc id) date =
        dayCounts ⟨doc.habits.filter (fun h => h.id ≠ id), doc.checks⟩ date) :=
  ⟨deleteHabit_no_id doc id, deleteHabit_checks_gone doc id,
    fun date => dayCounts_deleteHabit doc id date⟩

theorem deleteHabit_spec_witness :
    (∀ h ∈ (deleteHabit ⟨[⟨("a"), ("read"), ("2024-01-03")⟩], []⟩ ("a")).habits, h.id ≠ ("a")) ∧
      objGet ("a") (deleteHabit ⟨[⟨("a"), ("read"), ("2024-01-03")⟩], []⟩ ("a")).checks = none ∧
      (∀ date, dayCounts (deleteHabit ⟨[⟨("a"), ("read"), ("2024-01-03")⟩], []⟩ ("a")) date =
        dayCounts ⟨[], []⟩ date) := by
  have h := deleteHabit_spec ⟨[⟨("a"), ("read"), ("2024-01-03")⟩], []⟩ ("a") (by decide)
  exact h

/-- C8: on a date with no active habit, `dayCounts` is `(0, 0)` and the
derived ring percentage is the rational number `0` (the `total ? done /
total : 0` guard avoids the `0 / 0` division). -/
theorem dayCounts_no_active (doc : Doc) (date : Int)
    (h : ∀ hb ∈ doc.habits, habitActiveOn hb date = false) :
    dayCounts doc date = (0, 0) ∧
      percent (dayCounts doc date).1 (dayCounts doc date).2 = 0 := by
  have h1 : dayCounts doc date = (0, 0) := by
    rw [dayCounts_eq]
    have h2 : doc.habits.filter (fun hb => habitActiveOn hb date) = [] := by
      rw [List.filter_eq_nil_iff]
      intro hb hmem
      simp [h hb hmem]
    have h3 : doc.habits.filter (fun hb => habitActiveOn hb date &&
        (checkEntry doc.checks hb.id (weekKey date) (getDay date).toNat == some true)) = [] := by
      rw [List.filter_eq_nil_iff]
      intro hb hmem
      simp [habitDoneOn, h hb hmem]
    rw [show (fun hb => habitDoneOn doc.checks hb date) =
      (fun hb => habitDoneOn doc.checks hb date) from rfl]
    simp only [Prod.mk.injEq]
    constructor
    · have h4 : doc.habits.filter (fun hb => habitDoneOn doc.checks hb date) = [] := by
        rw [List.filter_eq_nil_iff]
        intro hb hmem
        simp [habitDoneOn, h hb hmem]
      simp [h4]
    · simp [h2]
  refine ⟨h1, ?_⟩
  rw [h1]
  rfl

/-- C10: toggling the check at `(habitId, weekKey, dayIndex)` changes at
most that one entry: the habits sequence is untouched and the entry at
every other `(habitId, weekKey, dayIndex)` triple keeps its prior value
(absent entries stay absent). -/
theorem setCheck_frame (doc : Doc) (id wk : String) (day : Nat) (v : Bool)
    (id' wk' : String) (day' : Nat)
    (h : ¬(id' = id ∧ wk' = wk ∧ day' = day)) :
    (setCheck doc id wk day v).habits = doc.habits ∧
      checkEntry (setCheck doc id wk day v).checks id' wk' day' =
        checkEntry doc.checks id' wk' day' := by
  refine ⟨rfl, ?_⟩
  apply checkEntry_setCheck_frame
  rintro ⟨h1, h2, h3⟩
  exact h ⟨h1, h2, natKey_inj _ _ h3⟩

theorem setCheck_frame_witness :
    (setCheck ⟨[], []⟩ ("a") ("w") 1 true).habits = [] ∧
      checkEntry (setCheck ⟨[], []⟩ ("a") ("w") 1 true).checks ("a") ("w") 2 =
        checkEntry ([] : CheckMap) ("a") ("w") 2 :=
  setCheck_frame ⟨[], []⟩ ("a") ("w") 1 true ("a") ("w") 2 (by decide)

/-- C8 witness check. -/
theorem dayCounts_no_active_witness :
    dayCounts ⟨[⟨("a"), ("read"), ("2024-01-05")⟩], []⟩ 0 = (0, 0) ∧
      percent (dayCounts ⟨[⟨("a"), ("read"), ("2024-01-05")⟩], []⟩ 0).1
        (dayCounts ⟨[⟨("a"), ("read"), ("2024-01-05")⟩], []⟩ 0).2 = 0 :=
  dayCounts_no_active ⟨[⟨("a"), ("read"), ("2024-01-05")⟩], []⟩ 0
    (by intro hb hmem; simp at hmem; subst hmem; decide)

/-- C3: `startOfWeek` is idempotent and monotonic. -/
theorem startOfWeek_idem_mono :
    (∀ t, startOfWeek (startOfWeek t) = startOfWeek t) ∧
      (∀ t1 t2, t1 ≤ t2 → startOfWeek t1 ≤ startOfWeek t2) := by
  constructor
  · intro t
    unfold startOfWeek getDay dayNumber msPerDay
    omega
  · intro t1 t2 h
    unfold startOfWeek getDay dayNumber msPerDay
    omega

theorem startOfWeek_idem_mono_witness :
    startOfWeek (startOfWeek 1704300000000) = startOfWeek 1704300000000 ∧
      startOfWeek 1704300000000 ≤ startOfWeek 1704400000000 :=
  ⟨startOfWeek_idem_mono.1 1704300000000,
    startOfWeek_idem_mono.2 1704300000000 1704400000000 (by norm_num)⟩

theorem takeDigits_append (l r : List Char) (hl : ∀ c ∈ l, c.isDigit = true)
    (hr : ∀ c cs, r = c :: cs → c.isDigit = false) :
    takeDigits (l ++ r) = (l, r) := by
  induction l with
  | nil =>
    cases r with
    | nil => rfl
    | cons c cs =>
      simp only [List.nil_append, takeDigits, hr c cs rfl]
      simp
  | cons c l ih =>
    have hc : c.isDigit = true := hl c (by simp)
    simp only [List.cons_append, takeDigits, hc, if_true, List.append_eq,
      ih (fun x hx => hl x (by simp [hx]))]

theorem splitYMD_fields (Y M D : List Char)
    (hY : ∀ c ∈ Y, c.isDigit = true) (hM : ∀ c ∈ M, c.isDigit = true)
    (hD : ∀ c ∈ D, c.isDigit = true)
    (hY0 : Y ≠ []) (hM0 : M ≠ []) (hD0 : D ≠ []) :
    splitYMD (Y ++ '-' :: (M ++ '-' :: D)) =
      some ⟨digitsVal Y, Y.length, digitsVal M, M.length, digitsVal D, D.length⟩ := by
  unfold splitYMD
  rw [takeDigits_append Y ('-' :: (M ++ '-' :: D)) hY (by intro c cs h; cases h; rfl)]
  simp only [expectDash, eq_self_iff_true, if_true, Option.some_bind]
  rw [takeDigits_append M ('-' :: D) hM (by intro c cs h; cases h; rfl)]
  simp only [expectDash, eq_self_iff_true, if_true, Option.some_bind]
  rw [show D = D ++ [] from by simp, takeDigits_append D [] hD (by intro c cs h; cases h)]
  simp [hY0, hM0, hD0]

theorem isDigit_ne_plus (c : Char) (h : c.isDigit = true) : c ≠ '+' := by
  rintro rfl
  exact absurd h (by decide)

theorem isDigit_ne_dash (c : Char) (h : c.isDigit = true) : c ≠ '-' := by
  rintro rfl
  exact absurd h (by decide)

theorem splitSignedYMD_isoOfCivil (y m d : Int) :
    ∃ sg yl ml dl, splitSignedYMD (isoOfCivil y m d) =
      some ⟨sg, y, yl, m.toNat, ml, d.toNat, dl⟩ := by
  unfold isoOfCivil yearChars
  set M := padZeros 2 (natDigits m.toNat) with hM
  set D := padZeros 2 (natDigits d.toNat) with hD
  have hMdig : ∀ c ∈ M, c.isDigit = true := padZeros_isDigit _ _ (natDigits_isDigit _)
  have hDdig : ∀ c ∈ D, c.isDigit = true := padZeros_isDigit _ _ (natDigits_isDigit _)
  have hM0 : M ≠ [] := padZeros_ne_nil _ _ (natDigits_ne_nil _)
  have hD0 : D ≠ [] := padZeros_ne_nil _ _ (natDigits_ne_nil _)
  have hMv : digitsVal M = m.toNat := by rw [hM, digitsVal_padZeros, digitsVal_natDigits]
  have hDv : digitsVal D = d.toNat := by rw [hD, digitsVal_padZeros, digitsVal_natDigits]
  split_ifs with h1 h2
  · set Y := padZeros 4 (natDigits y.toNat) with hY
    have hYdig : ∀ c ∈ Y, c.isDigit = true := padZeros_isDigit _ _ (natDigits_isDigit _)
    have hY0 : Y ≠ [] := padZeros_ne_nil _ _ (natDigits_ne_nil _)
    have hYv : digitsVal Y = y.toNat := by rw [hY, digitsVal_padZeros, digitsVal_natDigits]
    obtain ⟨c, Y', hYc⟩ := List.exists_cons_of_ne_nil hY0
    have hcdig : c.isDigit = true := hYdig c (by rw [hYc]; exact List.mem_cons_self c Y')
    refine ⟨false, Y.length, M.length, D.length, ?_⟩
    rw [hYc, List.cons_append]
    simp only [splitSignedYMD, if_neg (isDigit_ne_plus c hcdig),
      if_neg (isDigit_ne_dash c hcdig)]
    rw [← List.cons_append, ← hYc,
      splitYMD_fields Y M D hYdig hMdig hDdig hY0 hM0 hD0]
    simp only [Option.map_some']
    rw [hYv, hMv, hDv, Int.toNat_of_nonneg h1.1]
  · set Y := padZeros 6 (natDigits y.toNat) with hY
    have hYdig : ∀ c ∈ Y, c.isDigit = true := padZeros_isDigit _ _ (natDigits_isDigit _)
    have hY0 : Y ≠ [] := padZeros_ne_nil _ _ (natDigits_ne_nil _)
    have hYv : digitsVal Y = y.toNat := by rw [hY, digitsVal_padZeros, digitsVal_natDigits]
    refine ⟨true, Y.length, M.length, D.length, ?_⟩
    rw [List.cons_append]
    simp only [splitSignedYMD, if_pos rfl]
    rw [splitYMD_fields Y M D hYdig hMdig hDdig hY0 hM0 hD0]
    simp only [Option.map_some']
    rw [hYv, hMv, hDv, Int.toNat_of_nonneg h2]
    simp
  · set Y := padZeros 6 (natDigits (-y).toNat) with hY
    have hYdig : ∀ c ∈ Y, c.isDigit = true := padZeros_isDigit _ _ (natDigits_isDigit _)
    have hY0 : Y ≠ [] := padZeros_ne_nil _ _ (natDigits_ne_nil _)
    have hYv : digitsVal Y = (-y).toNat := by rw [hY, digitsVal_padZeros, digitsVal_natDigits]
    refine ⟨true, Y.length, M.length, D.length, ?_⟩
    rw [List.cons_append]
    simp only [splitSignedYMD, if_neg (by decide : ('-' : Char) ≠ '+'), if_pos rfl]
    rw [splitYMD_fields Y M D hYdig hMdig hDdig hY0 hM0 hD0]
    simp only [Option.map_some']
    rw [hYv, hMv, hDv, Int.toNat_of_nonneg (by omega : (0:Int) ≤ -y)]
    rw [neg_neg]
    simp

theorem isoOfCivil_length (y m d : Int) (hy : 0 ≤ y ∧ y ≤ 9999)
    (hm : m.toNat < 100) (hd : d.toNat < 100) : (isoOfCivil y m d).length = 10 := by
  unfold isoOfCivil yearChars
  rw [if_pos hy]
  have l4 : (padZeros 4 (natDigits y.toNat)).length = 4 :=
    padZeros_length _ _ (natDigits_length_le _ _ (by norm_num) (by omega))
  have lm : (padZeros 2 (natDigits m.toNat)).length = 2 :=
    padZeros_length _ _ (natDigits_length_le _ _ (by norm_num) (by omega))
  have ld : (padZeros 2 (natDigits d.toNat)).length = 2 :=
    padZeros_length _ _ (natDigits_length_le _ _ (by norm_num) (by omega))
  simp [l4, lm, ld]

theorem decodeISODay_toISODate (z : Int)
    (hy0 : 0 ≤ (civilFromDays z).1) (hy1 : (civilFromDays z).1 ≤ 9999) :
    decodeISODay (toISODate z) = some z := by
  obtain ⟨hm1, hm2, hd1, hd2⟩ := civilFromDays_ranges z
  unfold toISODate decodeISODay
  rw [List.take_of_length_le (le_of_eq (isoOfCivil_length (civilFromDays z).1
    (civilFromDays z).2.1 (civilFromDays z).2.2 ⟨hy0, hy1⟩ (by omega) (by omega)))]
  obtain ⟨sg, yl, ml, dl, hsplit⟩ :=
    splitSignedYMD_isoOfCivil (civilFromDays z).1 (civilFromDays z).2.1 (civilFromDays z).2.2
  have hdata : splitSignedYMD (String.mk (isoOfCivil (civilFromDays z).1
      (civilFromDays z).2.1 (civilFromDays z).2.2)).data =
      splitSignedYMD (isoOfCivil (civilFromDays z).1
      (civilFromDays z).2.1 (civilFromDays z).2.2) := rfl
  rw [hdata, hsplit]
  simp only [Option.map_some']
  congr 1
  rw [Int.toNat_of_nonneg (by omega : (0:Int) ≤ (civilFromDays z).2.1),
    Int.toNat_of_nonneg (by omega : (0:Int) ≤ (civilFromDays z).2.2)]
  exact daysFromCivil_civilFromDays z

theorem toISODate_inj (z1 z2 : Int)
    (hy1 : 0 ≤ (civilFromDays z1).1 ∧ (civilFromDays z1).1 ≤ 9999)
    (hy2 : 0 ≤ (civilFromDays z2).1 ∧ (civilFromDays z2).1 ≤ 9999)
    (h : toISODate z1 = toISODate z2) : z1 = z2 := by
  have h1 := decodeISODay_toISODate z1 hy1.1 hy1.2
  rw [h, decodeISODay_toISODate z2 hy2.1 hy2.2] at h1
  exact (Option.some_inj.mp h1).symm

/-- C2 counterexample: two Sundays one week apart in January of year
10000 (day numbers 2932898 and 2932905, midnight timestamps) lie in
different Sunday-to-Saturday spans, yet `slice(0,10)` of the expanded
ISO string `+010000-01-..` keeps only `+010000-01`, so their week keys
coincide. -/
theorem weekKey_span_counterexample :
    weekKey 253403827200000 = weekKey 253404432000000 ∧
      ¬ sameSundaySpan 253403827200000 253404432000000 := by
  constructor
  · decide
  · rintro ⟨w, hw0, h1, h2, h3, h4⟩
    unfold dayNumber msPerDay at h1 h2 h3 h4
    omega

/-- C2 (amended): `weekKey` is the ISO date string of `startOfWeek`,
and for dates whose week start falls in a year rendered with four
digits (0..9999, where `slice(0,10)` keeps the whole date), two dates
have the same `weekKey` exactly when they lie in the same
Sunday-to-Saturday span. -/
theorem weekKey_spec_amended (t1 t2 : Int)
    (hy1 : 0 ≤ (civilFromDays (dayNumber (startOfWeek t1))).1 ∧
      (civilFromDays (dayNumber (startOfWeek t1))).1 ≤ 9999)
    (hy2 : 0 ≤ (civilFromDays (dayNumber (startOfWeek t2))).1 ∧
      (civilFromDays (dayNumber (startOfWeek t2))).1 ≤ 9999) :
    (weekKey t1 = weekKey t2 ↔ sameSundaySpan t1 t2) ∧
      weekKey t1 = toISODate (dayNumber (startOfWeek t1)) := by
  refine ⟨⟨?_, ?_⟩, rfl⟩
  · intro h
    have h' : toISODate (dayNumber (startOfWeek t1)) =
        toISODate (dayNumber (startOfWeek t2)) := h
    have hw := toISODate_inj _ _ hy1 hy2 h'
    have e1 : dayNumber (startOfWeek t1) = dayNumber t1 - (dayNumber t1 + 4) % 7 := by
      unfold startOfWeek getDay dayNumber msPerDay
      omega
    have e2 : dayNumber (startOfWeek t2) = dayNumber t2 - (dayNumber t2 + 4) % 7 := by
      unfold startOfWeek getDay dayNumber msPerDay
      omega
    rw [e1, e2] at hw
    exact ⟨dayNumber t1 - (dayNumber t1 + 4) % 7,
      by omega, by omega, by omega, by omega, by omega⟩
  · rintro ⟨w, hw0, h1, h2, h3, h4⟩
    have e : dayNumber (startOfWeek t1) = dayNumber (startOfWeek t2) := by
      unfold dayNumber msPerDay at h1 h2 h3 h4
      unfold startOfWeek getDay dayNumber msPerDay
      omega
    unfold weekKey
    rw [e]

theorem weekKey_spec_amended_witness :
    ((weekKey 1704585600000 = weekKey 1704672000000 ↔
        sameSundaySpan 1704585600000 1704672000000) ∧
      weekKey 1704585600000 = toISODate (dayNumber (startOfWeek 1704585600000))) :=
  weekKey_spec_amended 1704585600000 1704672000000 (by decide) (by decide)

theorem daysFromCivil_linear (y m d : Int) :
    daysFromCivil y m d = daysFromCivil y m 1 + d - 1 := by
  unfold daysFromCivil
  dsimp only
  split_ifs <;> omega

theorem monthLength_bounds (y m : Int) : 28 ≤ monthLength y m ∧ monthLength y m ≤ 31 := by
  unfold monthLength
  split_ifs <;> norm_num

theorem dayNumber_mul_msPerDay (a : Int) : dayNumber (a * msPerDay) = a := by
  unfold dayNumber msPerDay
  omega

/-- The first day of the month after `mo` is one past the last day of
`mo`: the calendar has no gaps between months. -/
theorem first_of_next (y mo : Int) (h1 : 1 ≤ mo) (h2 : mo ≤ 12) :
    daysFromCivil (if mo = 12 then y + 1 else y) (if mo = 12 then 1 else mo + 1) 1 =
      daysFromCivil y mo (monthLength y mo) + 1 := by
  interval_cases mo <;>
  · first
    | (norm_num [monthLength]
       unfold daysFromCivil
       norm_num
       omega)
    | (norm_num [monthLength]
       cases hL : isLeap y
       · have hLp : ¬(y % 4 = 0 ∧ ¬y % 100 = 0) ∧ ¬y % 400 = 0 := by
           simpa [isLeap] using hL
         unfold daysFromCivil
         norm_num
         omega
       · have hLp : (y % 4 = 0 ∧ ¬y % 100 = 0) ∨ y % 400 = 0 := by
           simpa [isLeap] using hL
         unfold daysFromCivil
         norm_num
         omega)

theorem daysInMonth_eq (y m : Int) (hm0 : 0 ≤ m) (hm : m ≤ 11) :
    daysInMonth y m = monthLength y (m + 1) := by
  unfold daysInMonth jsDateTs
  rw [dayNumber_mul_msPerDay]
  have hnext : daysFromCivil (y + (m + 1) / 12) ((m + 1) % 12 + 1) 0 =
      daysFromCivil y (m + 1) (monthLength y (m + 1)) := by
    by_cases h12 : m + 1 = 12
    · rw [h12]
      norm_num
      have hf := first_of_next y 12 (by norm_num) (by norm_num)
      norm_num at hf
      rw [daysFromCivil_linear (y + 1) 1 0]
      omega
    · have ha : (m + 1) / 12 = 0 := by omega
      have hb : (m + 1) % 12 = m + 1 := by omega
      rw [ha, hb, add_zero]
      have hf := first_of_next y (m + 1) (by omega) (by omega)
      rw [if_neg h12, if_neg h12] at hf
      rw [daysFromCivil_linear y (m + 1 + 1) 0]
      omega
  rw [hnext]
  have hml := monthLength_bounds y (m + 1)
  rw [civilFromDays_daysFromCivil y (m + 1) (monthLength y (m + 1))
    (by omega) (by omega) (by omega) le_rfl]

/-- C9: the month grid has one cell per calendar day of the month `m`
(0-based, as `renderCalendar` reads it off `getMonth()`): the number of
cells is `daysInMonth`, which is the length of civil month `m + 1`; the
dates are strictly ascending; every cell's percent is `done / total`
(or 0 when `total = 0`) and lies in `[0, 1]`; and the `i`-th cell is
exactly calendar day `i + 1` of that month. -/
theorem monthGrid_spec (doc : Doc) (y m : Int) (hm0 : 0 ≤ m) (hm : m ≤ 11) :
    (monthGrid doc y m).length = (daysInMonth y m).toNat ∧
      daysInMonth y m = monthLength y (m + 1) ∧
      List.Pairwise (fun a b => a.date < b.date) (monthGrid doc y m) ∧
      (∀ cell ∈ monthGrid doc y m,
        cell.done ≤ cell.total ∧
        cell.percent = (if cell.total = 0 then 0 else (cell.done : ℚ) / (cell.total : ℚ)) ∧
        0 ≤ cell.percent ∧ cell.percent ≤ 1) ∧
      (∀ i : Nat, ∀ hi : i < (monthGrid doc y m).length,
        ((monthGrid doc y m).get ⟨i, hi⟩).date = jsDateTs y m ((i : Int) + 1) ∧
        civilFromDays (dayNumber (((monthGrid doc y m).get ⟨i, hi⟩).date)) =
          (y, m + 1, (i : Int) + 1)) := by
  have hdim := daysInMonth_eq y m hm0 hm
  have hml := monthLength_bounds y (m + 1)
  have hlen : (monthGrid doc y m).length = (daysInMonth y m).toNat := by
    unfold monthGrid
    rw [List.length_map, List.length_range]
  refine ⟨hlen, hdim, ?_, ?_, ?_⟩
  · unfold monthGrid
    rw [List.pairwise_map]
    apply List.Pairwise.imp ?_ (List.pairwise_lt_range _)
    intro a b hab
    dsimp only
    unfold jsDateTs
    apply Int.mul_lt_mul_of_pos_right ?_ (by norm_num [msPerDay])
    apply daysFromCivil_lt_of_day_lt
    omega
  · intro cell hcell
    simp only [monthGrid, List.mem_map, List.mem_range] at hcell
    obtain ⟨i, hi, rfl⟩ := hcell
    refine ⟨dayCounts_done_le_total doc _, rfl, percent_nonneg _ _,
      percent_le_one _ _ (dayCounts_done_le_total doc _)⟩
  · intro i hi
    have hi' : i < (daysInMonth y m).toNat := hlen ▸ hi
    have hget : (monthGrid doc y m).get ⟨i, hi⟩ =
        ⟨jsDateTs y m ((i : Int) + 1), (dayCounts doc (jsDateTs y m ((i : Int) + 1))).1,
          (dayCounts doc (jsDateTs y m ((i : Int) + 1))).2,
          percent (dayCounts doc (jsDateTs y m ((i : Int) + 1))).1
            (dayCounts doc (jsDateTs y m ((i : Int) + 1))).2⟩ := by
      simp [monthGrid, List.get_eq_getElem, List.getElem_map, List.getElem_range]
    rw [hget]
    refine ⟨rfl, ?_⟩
    dsimp only
    unfold jsDateTs
    have ha : m / 12 = 0 := by omega
    have hb : m % 12 = m := by omega
    rw [ha, hb, add_zero, dayNumber_mul_msPerDay]
    exact civilFromDays_daysFromCivil y (m + 1) ((i : Int) + 1)
      (by omega) (by omega) (by omega) (by omega)

theorem monthGrid_spec_witness :
    (monthGrid ⟨[], []⟩ 2023 3).length = 30 ∧ daysInMonth 2023 3 = 30 := by
  have h := monthGrid_spec ⟨[], []⟩ 2023 3 (by norm_num) (by norm_num)
  refine ⟨?_, ?_⟩
  · rw [h.1]
    decide
  · rw [h.2.1]
    decide

end HabitTracker
